import Mathlib

/-!
Verification of the tool registration and dispatch core of `my_demo/tool_registry.py`.

The Python module keeps two module-level dicts, `_TOOL_HOOKS` (name → callable)
and `_TOOL_DESCRIPTIONS` (name → tool_def dict), populated by the decorator
`register_tool` and consumed by `dispatch_tool` and `get_tools`.

Embedding conventions:
* Python dicts keyed by strings become association lists with Python's
  update-in-place-or-append semantics (`dictInsert`) and first-match lookup
  (`dictGet`); a dict built only through `dictInsert` has pairwise distinct
  keys, mirroring real dicts.
* The module-level mutable state becomes the explicit record `RegState`,
  threaded through the operations; `register_tool`, which can raise, returns
  `Except PyErr RegState`.  In the source both table writes happen only after
  the whole parameter loop has succeeded (lines 62-63), so a raise leaves both
  dicts untouched; the `Except` embedding reflects exactly that.
* Python exceptions become the `PyErr` datatype; raising code returns
  `Except.error`.
* `copy.deepcopy` aliasing behaviour (claim about `get_tools`) is modelled in
  the `HeapModel` section with an explicit address-based heap.
-/

set_option autoImplicit false
set_option maxRecDepth 100000

namespace ToolRegistry

/-- Python runtime values as far as the registry manipulates them:
strings, booleans, integers, tuples, and `None`.
(Python `bool` is a distinct runtime type tag from `int` for the purposes of
`isinstance(x, bool)` / `isinstance(x, str)`, which is all the code checks.) -/
inductive PyObj where
  | str (s : String)
  | bool (b : Bool)
  | int (n : Int)
  | tuple (items : List PyObj)
  | pyNone
  deriving Repr

/-- The Python exceptions the registry code can raise. -/
inductive PyErr where
  | typeError (msg : String)
  | attributeError (msg : String)
  deriving Repr, DecidableEq

/-- The spec's error taxonomy (§7) calls a registration-time malformed-declaration
failure a `SchemaError`; in the source these checks `raise TypeError(...)`. -/
def SchemaError (msg : String) : PyErr := .typeError msg

/-- A Python type expression usable inside `Annotated[...]`: either a plain
class (carrying its `__name__`) or a `types.GenericAlias` such as `list[str]`
(carrying its `str(...)` rendering). -/
inductive PyType where
  | simple (typeName : String)
  | genericAlias (rendering : String)
  deriving Repr, DecidableEq

/-- A parameter's declared annotation, as `inspect.signature(...).parameters[name].annotation`
presents it: absent (`inspect.Parameter.empty`), a bare type, or an
`Annotated[t, m1, ...]` alias (which always carries at least one metadata
argument: `Annotated[t]` is rejected at construction by `typing`). -/
inductive PyAnn where
  | empty
  | plain (t : PyType)
  | annotated (t : PyType) (m1 : PyObj) (ms : List PyObj)
  deriving Repr

/-- A function declaration as `register_tool` inspects it:
`__name__`, the result of `inspect.getdoc` (`none` when there is no docstring),
and the declared parameters in declaration order. -/
structure FuncDecl where
  name : String
  doc : Option String
  params : List (String × PyAnn)
  deriving Repr

/-- One entry of the `tool_params` list built by `register_tool`
(lines 48-53 of the source): a dict with keys name/description/type/required. -/
structure ParamDef where
  name : String
  description : String
  type : String
  required : Bool
  deriving Repr, DecidableEq

/-- The `tool_def` dict stored in `_TOOL_DESCRIPTIONS` (lines 55-59). -/
structure ToolDef where
  name : String
  description : String
  params : List ParamDef
  deriving Repr, DecidableEq

/-- A registered callable: Python keyword arguments in, and either a returned
value or a raised exception out.  None of the tools defined in the module read
or write the registry tables, so hooks do not act on `RegState`. -/
def Tool : Type := List (String × PyObj) → Except PyErr PyObj

/-- The module-level mutable state: `_TOOL_HOOKS` and `_TOOL_DESCRIPTIONS`
(lines 12-13 of the source). -/
structure RegState where
  hooks : List (String × Tool)
  descriptions : List (String × ToolDef)

/-- The state at module load, before any `@register_tool` runs: both dicts empty. -/
def emptyState : RegState := ⟨[], []⟩

/-- Python dict lookup `d[k]` / `k in d`, as first-match search. -/
def dictGet {α : Type} : List (String × α) → String → Option α
  | [], _ => none
  | (k, v) :: rest, key => if k = key then some v else dictGet rest key

/-- Python dict assignment `d[k] = v`: replaces the value in place when the key
is present (dicts keep the original insertion position), appends otherwise. -/
def dictInsert {α : Type} : List (String × α) → String → α → List (String × α)
  | [], key, val => [(key, val)]
  | (k, v) :: rest, key, val =>
      if k = key then (key, val) :: rest else (k, v) :: dictInsert rest key val

/-! ### `register_tool` (source lines 20-65)

Per-parameter processing (lines 26-53).  Two facts of the Python `typing`
module that the code relies on, checked against CPython:
* `get_origin(a)` is the class `typing.Annotated` itself exactly when `a` is an
  `Annotated[...]` alias (documented behaviour of `typing.get_origin`), so the
  line-30 guard passes exactly for `PyAnn.annotated`;
* consequently `typ = get_origin(annotation)` on line 34 is the class
  `typing.Annotated`, which is not a `types.GenericAlias` and whose
  `__name__` is `"Annotated"`, so line 42 always produces the string
  `"Annotated"` (never the wrapped type's name).
`get_args(annotation)` is `(t, m1, ..., mk)`, so `get_args(annotation)[1]`
on line 35 is the first metadata argument `m1`. -/

/-- The `__name__` of the class `typing.Annotated`. -/
def annotatedClassName : String := "Annotated"

/-- Lines 26-53 of the source for one `(name, param)` item: validate the
annotation and build the parameter dict appended to `tool_params`. -/
def extractParam (name : String) (ann : PyAnn) : Except PyErr ParamDef :=
  match ann with
  | .empty =>
      .error (.typeError ("Parameter `" ++ name ++ "` missing type annotation"))
  | .plain _ =>
      .error (.typeError ("Annotation type for `" ++ name ++ "` must be typing.Annotated"))
  | .annotated _t m1 _ms =>
      -- typ = get_origin(annotation): the class typing.Annotated (see above)
      -- metadata = get_args(annotation)[1] = m1
      match m1 with
      | .tuple [d, r] =>
          -- description, required = metadata
          -- typ: str = str(typ) if isinstance(typ, GenericAlias) else typ.__name__
          match d with
          | .str ds =>
              match r with
              | .bool rb => .ok ⟨name, ds, annotatedClassName, rb⟩
              | _ => .error (.typeError ("Required for `" ++ name ++ "` must be a bool"))
          | _ => .error (.typeError ("Description for `" ++ name ++ "` must be a string"))
      | _ =>
          .error (.typeError
            ("Metadata for `" ++ name ++ "` must be a tuple with two elements (description, required)"))

/-- The `for name, param in python_params.items()` loop: parameters processed
in declaration order, aborting at the first raise. -/
def extractParams : List (String × PyAnn) → Except PyErr (List ParamDef)
  | [] => .ok []
  | (n, a) :: rest =>
      match extractParam n a with
      | .error e => .error e
      | .ok p =>
          match extractParams rest with
          | .error e => .error e
          | .ok ps => .ok (p :: ps)

/-- Python's `str.isspace` on the ASCII whitespace characters (the Unicode
whitespace beyond these is outside the model). -/
def isPySpace (c : Char) : Bool :=
  c == ' ' || c == '\t' || c == '\n' || c == '\x0d' || c == '\x0b' || c == '\x0c'

/-- Python `str.strip()`: remove leading and trailing whitespace. -/
def pyStrip (s : String) : String :=
  ⟨((s.data.dropWhile isPySpace).reverse.dropWhile isPySpace).reverse⟩

/-- Line 22, `inspect.getdoc(func).strip()`: with no docstring `getdoc` returns
`None` and the attribute access `.strip` raises `AttributeError`. -/
def getdocStripped (decl : FuncDecl) : Except PyErr String :=
  match decl.doc with
  | none => .error (.attributeError "'NoneType' object has no attribute 'strip'")
  | some d => .ok (pyStrip d)

/-- Lines 20-59: the `tool_def` dict that `register_tool` builds
(before the table writes). -/
def mkToolDef (decl : FuncDecl) : Except PyErr ToolDef :=
  match getdocStripped decl with
  | .error e => .error e
  | .ok tool_description =>
      match extractParams decl.params with
      | .error e => .error e
      | .ok tool_params => .ok ⟨decl.name, tool_description, tool_params⟩

/-- `register_tool` (lines 20-65).  Both table writes (lines 62-63) happen only
after the description and every parameter have been validated, so a raise
anywhere in the loop leaves `_TOOL_HOOKS` and `_TOOL_DESCRIPTIONS` untouched;
`Except.error` therefore carries no new state.  The `print` on line 61 is an
observability side effect with no bearing on the state.  (The decorator also
returns `func` unchanged; the returned value plays no role in the claims.) -/
def register_tool (decl : FuncDecl) (hook : Tool) (st : RegState) : Except PyErr RegState :=
  match mkToolDef decl with
  | .error e => .error e
  | .ok td => .ok ⟨dictInsert st.hooks decl.name hook, dictInsert st.descriptions decl.name td⟩

/-! ### `dispatch_tool` (source lines 67-75) and `str()` rendering -/

/-- Python `repr` restricted to the values of `PyObj` (element rendering inside
tuples; string escaping inside `repr` of a string is elided — no claim
exercises it). -/
def pyRepr : PyObj → String
  | .str s => "'" ++ s ++ "'"
  | .bool b => if b then "True" else "False"
  | .int n => toString n
  | .pyNone => "None"
  | .tuple items =>
      "(" ++ String.intercalate ", " (items.attach.map (fun x => pyRepr x.1))
          ++ (if items.length = 1 then ",)" else ")")
decreasing_by
  have h := List.sizeOf_lt_of_mem x.2
  simp only [PyObj.tuple.sizeOf_spec]
  omega

/-- Python `str()` on the values of `PyObj` (`str` of a tuple renders its
elements with `repr`). -/
def pyStr : PyObj → String
  | .str s => s
  | .bool b => if b then "True" else "False"
  | .int n => toString n
  | .pyNone => "None"
  | .tuple items => pyRepr (.tuple items)

/-- First line of a `traceback.format_exc()` rendering. -/
def excHeader : String := "Traceback (most recent call last):\n"

/-- The final line of a traceback: `TypeName: message`. -/
def excLine : PyErr → String
  | .typeError m => "TypeError: " ++ m
  | .attributeError m => "AttributeError: " ++ m

/-- `traceback.format_exc()`: the header, the stack frames (whose file/line
text is outside the model and elided), and the closing `TypeName: message`
line with a trailing newline. -/
def format_exc (e : PyErr) : String := excHeader ++ excLine e ++ "\n"

/-- `dispatch_tool` (lines 67-75).  The bare `except:` catches every exception
raised by the call — including the `TypeError` CPython raises while binding
`**tool_params` against the callable's parameters, which the `Tool` functions
model — and replaces the result with the formatted traceback; the function
body never writes the registry tables, so the state comes back unchanged. -/
def dispatch_tool (tool_name : String) (tool_params : List (String × PyObj)) (st : RegState) :
    String × RegState :=
  match dictGet st.hooks tool_name with
  | none => ("Tool `" ++ tool_name ++ "` not found. Please use a provided tool.", st)
  | some tool_call =>
      match tool_call tool_params with
      | .ok ret => (pyStr ret, st)
      | .error e => (pyStr (.str (format_exc e)), st)

/-- `s` contains `sub` as a contiguous substring (stated on the underlying
character lists). -/
def containsSub (s sub : String) : Prop :=
  ∃ pre post, s.data = pre ++ sub.data ++ post

/-! ### MD5 (RFC 1321)

`generate_md5` (source lines 108-116) returns
`hashlib.md5(input_string.encode()).hexdigest()`.  `hashlib.md5` is the
standard MD5 algorithm; it is embedded here directly from RFC 1321, over `Nat`
with explicit reduction mod `2^32`. -/

namespace MD5

/-- Reduce to a 32-bit word. -/
def mask32 (n : Nat) : Nat := n % 4294967296

/-- 32-bit modular addition. -/
def add32 (a b : Nat) : Nat := mask32 (a + b)

/-- 32-bit left rotation (arguments: a word `x < 2^32` and a shift `0 < s < 32`). -/
def rotl32 (x s : Nat) : Nat := mask32 (x <<< s) ||| (x >>> (32 - s))

/-- Round functions F, G, H, I; bitwise NOT within 32 bits is XOR with `2^32 - 1`. -/
def auxF (b c d : Nat) : Nat := (b &&& c) ||| ((b ^^^ 4294967295) &&& d)

def auxG (b c d : Nat) : Nat := (d &&& b) ||| ((d ^^^ 4294967295) &&& c)

def auxH (b c d : Nat) : Nat := b ^^^ c ^^^ d

def auxI (b c d : Nat) : Nat := c ^^^ (b ||| (d ^^^ 4294967295))

/-- The 64 sine-derived constants `K[i] = floor(2^32 * abs(sin(i + 1)))`. -/
def constK : List Nat :=
  [0xd76aa478, 0xe8c7b756, 0x242070db, 0xc1bdceee,
   0xf57c0faf, 0x4787c62a, 0xa8304613, 0xfd469501,
   0x698098d8, 0x8b44f7af, 0xffff5bb1, 0x895cd7be,
   0x6b901122, 0xfd987193, 0xa679438e, 0x49b40821,
   0xf61e2562, 0xc040b340, 0x265e5a51, 0xe9b6c7aa,
   0xd62f105d, 0x02441453, 0xd8a1e681, 0xe7d3fbc8,
   0x21e1cde6, 0xc33707d6, 0xf4d50d87, 0x455a14ed,
   0xa9e3e905, 0xfcefa3f8, 0x676f02d9, 0x8d2a4c8a,
   0xfffa3942, 0x8771f681, 0x6d9d6122, 0xfde5380c,
   0xa4beea44, 0x4bdecfa9, 0xf6bb4b60, 0xbebfbc70,
   0x289b7ec6, 0xeaa127fa, 0xd4ef3085, 0x04881d05,
   0xd9d4d039, 0xe6db99e5, 0x1fa27cf8, 0xc4ac5665,
   0xf4292244, 0x432aff97, 0xab9423a7, 0xfc93a039,
   0x655b59c3, 0x8f0ccc92, 0xffeff47d, 0x85845dd1,
   0x6fa87e4f, 0xfe2ce6e0, 0xa3014314, 0x4e0811a1,
   0xf7537e82, 0xbd3af235, 0x2ad7d2bb, 0xeb86d391]

/-- The per-round left-rotation amounts. -/
def shiftS : List Nat :=
  [7, 12, 17, 22, 7, 12, 17, 22, 7, 12, 17, 22, 7, 12, 17, 22,
   5,  9, 14, 20, 5,  9, 14, 20, 5,  9, 14, 20, 5,  9, 14, 20,
   4, 11, 16, 23, 4, 11, 16, 23, 4, 11, 16, 23, 4, 11, 16, 23,
   6, 10, 15, 21, 6, 10, 15, 21, 6, 10, 15, 21, 6, 10, 15, 21]

/-- Group a byte list into little-endian 32-bit words. -/
def wordsOfBytes : List Nat → List Nat
  | b0 :: b1 :: b2 :: b3 :: rest =>
      (b0 + 256 * b1 + 65536 * b2 + 16777216 * b3) :: wordsOfBytes rest
  | _ => []

/-- One of the 64 rounds on the state `(a, b, c, d)`, given the 16 message
words `m` of the current block. -/
def round (m : List Nat) (st : Nat × Nat × Nat × Nat) (i : Nat) : Nat × Nat × Nat × Nat :=
  let (a, b, c, d) := st
  let f :=
    if i < 16 then auxF b c d
    else if i < 32 then auxG b c d
    else if i < 48 then auxH b c d
    else auxI b c d
  let g :=
    if i < 16 then i
    else if i < 32 then (5 * i + 1) % 16
    else if i < 48 then (3 * i + 5) % 16
    else (7 * i) % 16
  let t := add32 (add32 (add32 a f) (constK.getD i 0)) (m.getD g 0)
  (d, add32 b (rotl32 t (shiftS.getD i 0)), b, c)

/-- Process one 64-byte block and add the result into the running state. -/
def processBlock (st : Nat × Nat × Nat × Nat) (block : List Nat) : Nat × Nat × Nat × Nat :=
  let m := wordsOfBytes block
  let (a, b, c, d) := (List.range 64).foldl (round m) st
  (add32 st.1 a, add32 st.2.1 b, add32 st.2.2.1 c, add32 st.2.2.2 d)

/-- Process `n` consecutive 64-byte blocks of a padded message (whose length
is always a multiple of 64, so `n` is `length / 64`). -/
def processNBlocks : Nat → (Nat × Nat × Nat × Nat) → List Nat → Nat × Nat × Nat × Nat
  | 0, st, _ => st
  | n + 1, st, msg => processNBlocks n (processBlock st (msg.take 64)) (msg.drop 64)

/-- The `k` low-order bytes of `n`, little-endian. -/
def leBytes : Nat → Nat → List Nat
  | 0, _ => []
  | k + 1, n => (n % 256) :: leBytes k (n / 256)

/-- MD5 padding: a `0x80` byte, zero bytes up to 56 mod 64, then the bit
length as a little-endian 64-bit quantity. -/
def padMessage (msg : List Nat) : List Nat :=
  let len := msg.length
  msg ++ [128] ++ List.replicate ((119 - len % 64) % 64) 0 ++ leBytes 8 (8 * len % 18446744073709551616)

/-- UTF-8 encoding of one code point (Python `str.encode()`). -/
def utf8Bytes (c : Nat) : List Nat :=
  if c < 128 then [c]
  else if c < 2048 then [192 + c / 64, 128 + c % 64]
  else if c < 65536 then [224 + c / 4096, 128 + c / 64 % 64, 128 + c % 64]
  else [240 + c / 262144, 128 + c / 4096 % 64, 128 + c / 64 % 64, 128 + c % 64]

/-- `s.encode()`: the UTF-8 bytes of a string. -/
def strBytes (s : String) : List Nat := (s.data.map (fun c => utf8Bytes c.toNat)).flatten

/-- One lowercase hex digit. -/
def hexDigit (n : Nat) : String :=
  (["0", "1", "2", "3", "4", "5", "6", "7", "8", "9", "a", "b", "c", "d", "e", "f"]).getD n "?"

/-- Two lowercase hex digits of a byte. -/
def byteHex (b : Nat) : String := hexDigit (b / 16) ++ hexDigit (b % 16)

/-- The eight hex digits of a 32-bit word, rendered byte-wise little-endian
(as `hexdigest` presents each state word). -/
def wordHex (w : Nat) : String :=
  byteHex (w % 256) ++ byteHex (w / 256 % 256) ++ byteHex (w / 65536 % 256)
    ++ byteHex (w / 16777216 % 256)

/-- `hashlib.md5(s.encode()).hexdigest()`. -/
def md5Hex (s : String) : String :=
  let msg := padMessage (strBytes s)
  let st := processNBlocks (msg.length / 64) (0x67452301, 0xefcdab89, 0x98badcfe, 0x10325476) msg
  wordHex st.1 ++ wordHex st.2.1 ++ wordHex st.2.2.1 ++ wordHex st.2.2.2

end MD5

/-! ### The module's tool definitions (source lines 82-157)

All four tools declare a single `Annotated[str, ("...", True)]` parameter.
The three adapters other than `generate_md5` call external collaborators
(HTTP services, the embedding/vector store); after their `isinstance` check
each wraps its whole body in `try/except` and returns a string in every case,
so their observable outcome is a string determined by the outside world,
modelled by the `World` record.  None of them reads or writes the registry
tables. -/

/-- The class `str`. -/
def strClass : PyType := .simple "str"

/-- `Annotated[str, (desc, req)]`, the annotation shape all four tools use. -/
def mkAnn (desc : String) (req : Bool) : PyAnn :=
  .annotated strClass (.tuple [.str desc, .bool req]) []

/-- The outcomes of the three self-guarded external adapters, as functions of
their (string) argument: each body catches its own collaborator failures and
produces a string either way. -/
structure World where
  weatherResult : String → String
  kbResult : String → String
  ipResult : String → String

/-- Python call binding `f(**params)` for a function with exactly one
positional-or-keyword parameter and no default: an extraneous key or a missing
required key raises `TypeError` before the body runs. -/
def bindSingleKw (fname pname : String) (args : List (String × PyObj)) : Except PyErr PyObj :=
  match args.filter (fun kv => kv.1 != pname) with
  | (k, _) :: _ =>
      .error (.typeError (fname ++ "() got an unexpected keyword argument '" ++ k ++ "'"))
  | [] =>
      match dictGet args pname with
      | some v => .ok v
      | none =>
          .error (.typeError (fname ++ "() missing 1 required positional argument: '" ++ pname ++ "'"))

/-- `get_weather` as a declaration (lines 82-88): name, docstring, parameters. -/
def get_weather_decl : FuncDecl :=
  ⟨"get_weather", some "Get the current weather for `city_name`",
   [("city_name", mkAnn "The name of the city to be queried" true)]⟩

/-- The `get_weather` body (lines 89-105): `TypeError` on a non-string
argument, otherwise the self-guarded HTTP lookup's string outcome. -/
def get_weather_hook (w : World) : Tool := fun args => do
  let v ← bindSingleKw "get_weather" "city_name" args
  match v with
  | .str city => .ok (.str (w.weatherResult city))
  | _ => .error (.typeError "City name must be a string")

/-- `generate_md5` as a declaration (lines 108-112). -/
def generate_md5_decl : FuncDecl :=
  ⟨"generate_md5", some "Generate MD5 hash of the provided string.",
   [("input_string", mkAnn "The input string to hash" true)]⟩

/-- The `generate_md5` body (lines 113-116): `TypeError` on a non-string
argument, otherwise the MD5 hex digest. -/
def generate_md5_hook : Tool := fun args => do
  let v ← bindSingleKw "generate_md5" "input_string" args
  match v with
  | .str s => .ok (.str (MD5.md5Hex s))
  | _ => .error (.typeError "Input string must be a string")

/-- `search_knowledge_base` as a declaration (lines 119-125). -/
def search_knowledge_base_decl : FuncDecl :=
  ⟨"search_knowledge_base",
   some "Search the knowledge base for documents similar to the provided query text.",
   [("query_text", mkAnn "The text to query in the net security knowledge base" true)]⟩

/-- The `search_knowledge_base` body (lines 126-139). -/
def search_knowledge_base_hook (w : World) : Tool := fun args => do
  let v ← bindSingleKw "search_knowledge_base" "query_text" args
  match v with
  | .str q => .ok (.str (w.kbResult q))
  | _ => .error (.typeError "Query text must be a string")

/-- `query_ip` as a declaration (lines 141-147). -/
def query_ip_decl : FuncDecl :=
  ⟨"query_ip", some "Query information about a given IP address.",
   [("ip_address", mkAnn "The IP address to query" true)]⟩

/-- The `query_ip` body (lines 148-157). -/
def query_ip_hook (w : World) : Tool := fun args => do
  let v ← bindSingleKw "query_ip" "ip_address" args
  match v with
  | .str ip => .ok (.str (w.ipResult ip))
  | _ => .error (.typeError "IP address must be a string")

/-- Module import: the four `@register_tool` decorators run in source order
against the initially empty tables. -/
def initStateE (w : World) : Except PyErr RegState :=
  register_tool get_weather_decl (get_weather_hook w) emptyState >>= fun s1 =>
  register_tool generate_md5_decl generate_md5_hook s1 >>= fun s2 =>
  register_tool search_knowledge_base_decl (search_knowledge_base_hook w) s2 >>= fun s3 =>
  register_tool query_ip_decl (query_ip_hook w) s3

/-- The registry state after module import (every registration succeeds, see
`initStateE_ok`). -/
def initState (w : World) : RegState := (initStateE w).toOption.getD emptyState

/-! ### Aliasing model for `get_tools` (source lines 77-78)

`get_tools` returns `copy.deepcopy(_TOOL_DESCRIPTIONS)`.  The point of the
deep copy is an aliasing property — mutating the returned structure must not
affect the live table — which is invisible in a pure value model, so this
section gives `_TOOL_DESCRIPTIONS` an explicit address-based representation:

* the table dict, each `tool_def` dict, each `params` list and each parameter
  dict are mutable Python objects and get their own heap address;
* strings and booleans are immutable in Python, so sharing them is
  unobservable and the leaf fields carry their values directly;
* `copy.deepcopy` recreates every reachable mutable object at a fresh address;
* "a mutation applied to the returned structure" is a heap write at an
  address reachable from the returned root.

`dumpTable` reads the pure value (a `List (String × ToolDef)`) back out of the
heap; it is the bridge between this model and the value-level `RegState`. -/

namespace HeapModel

/-- The four kinds of mutable objects reachable from `_TOOL_DESCRIPTIONS`. -/
inductive HObj where
  | paramObj (p : ParamDef)
  | plistObj (items : List Nat)
  | tdefObj (tname tdesc : String) (ps : Nat)
  | tableObj (entries : List (String × Nat))
  deriving Repr, DecidableEq

/-- A heap: an allocation counter and a cell store (later writes shadow
earlier ones; `read` takes the first match). -/
structure Heap where
  nextAddr : Nat
  cells : List (Nat × HObj)
  deriving Repr, DecidableEq

/-- Dereference an address. -/
def Heap.read (h : Heap) (a : Nat) : Option HObj :=
  (h.cells.find? (fun c => c.1 == a)).map Prod.snd

/-- Allocate a new object at the next fresh address. -/
def Heap.alloc (h : Heap) (o : HObj) : Heap × Nat :=
  (⟨h.nextAddr + 1, (h.nextAddr, o) :: h.cells⟩, h.nextAddr)

/-- Overwrite the object at an (allocated) address: the model of a Python
mutation such as `d[k] = v`, `lst[i] = x` or `lst.append(x)` performed on the
object living at that address. -/
def Heap.write (h : Heap) (a : Nat) (o : HObj) : Heap :=
  ⟨h.nextAddr, (a, o) :: h.cells⟩

/-- A heap produced by allocation only: every cell sits below the counter. -/
def Heap.closed (h : Heap) : Prop := ∀ c ∈ h.cells, c.1 < h.nextAddr

/-- Read one parameter dict back as a value. -/
def dumpParam (h : Heap) (a : Nat) : Option ParamDef :=
  match h.read a with
  | some (.paramObj p) => some p
  | _ => none

/-- Read a params list (addresses of parameter dicts) back as values. -/
def dumpParams (h : Heap) : List Nat → Option (List ParamDef)
  | [] => some []
  | a :: rest =>
      match dumpParam h a with
      | none => none
      | some p =>
          match dumpParams h rest with
          | none => none
          | some ps => some (p :: ps)

/-- Read one `tool_def` dict back as a value. -/
def dumpTdef (h : Heap) (a : Nat) : Option ToolDef :=
  match h.read a with
  | some (.tdefObj n d ps) =>
      match h.read ps with
      | some (.plistObj items) => (dumpParams h items).map (fun l => ⟨n, d, l⟩)
      | _ => none
  | _ => none

/-- Read the table's entries back as values. -/
def dumpEntries (h : Heap) : List (String × Nat) → Option (List (String × ToolDef))
  | [] => some []
  | (k, a) :: rest =>
      match dumpTdef h a with
      | none => none
      | some td =>
          match dumpEntries h rest with
          | none => none
          | some tds => some ((k, td) :: tds)

/-- Read the whole `_TOOL_DESCRIPTIONS` structure rooted at `a` back as the
value `RegState.descriptions` holds in the pure model. -/
def dumpTable (h : Heap) (a : Nat) : Option (List (String × ToolDef)) :=
  match h.read a with
  | some (.tableObj entries) => dumpEntries h entries
  | _ => none

/-- `copy.deepcopy` of one parameter dict: a fresh cell with the same payload. -/
def copyParam (h : Heap) (a : Nat) : Option (Heap × Nat) :=
  match h.read a with
  | some (.paramObj p) => some (h.alloc (.paramObj p))
  | _ => none

/-- `copy.deepcopy` of the elements of a params list, left to right. -/
def copyParams : Heap → List Nat → Option (Heap × List Nat)
  | h, [] => some (h, [])
  | h, a :: rest =>
      match copyParam h a with
      | none => none
      | some (h1, a1) =>
          match copyParams h1 rest with
          | none => none
          | some (h2, rest1) => some (h2, a1 :: rest1)

/-- `copy.deepcopy` of one `tool_def` dict: copy the parameter dicts, allocate
a fresh params list over the copies, then a fresh `tool_def` dict. -/
def copyTdef (h : Heap) (a : Nat) : Option (Heap × Nat) :=
  match h.read a with
  | some (.tdefObj n d ps) =>
      match h.read ps with
      | some (.plistObj items) =>
          match copyParams h items with
          | none => none
          | some (h1, items1) =>
              match h1.alloc (.plistObj items1) with
              | (h2, ps1) => some (h2.alloc (.tdefObj n d ps1))
      | _ => none
  | _ => none

/-- `copy.deepcopy` of the table's entries, left to right. -/
def copyEntries : Heap → List (String × Nat) → Option (Heap × List (String × Nat))
  | h, [] => some (h, [])
  | h, (k, a) :: rest =>
      match copyTdef h a with
      | none => none
      | some (h1, a1) =>
          match copyEntries h1 rest with
          | none => none
          | some (h2, rest1) => some (h2, (k, a1) :: rest1)

/-- `copy.deepcopy(_TOOL_DESCRIPTIONS)` rooted at `a`: copies every reachable
mutable object and returns the extended heap and the fresh root. -/
def deepcopyTable (h : Heap) (a : Nat) : Option (Heap × Nat) :=
  match h.read a with
  | some (.tableObj entries) =>
      match copyEntries h entries with
      | none => none
      | some (h1, entries1) => some (h1.alloc (.tableObj entries1))
  | _ => none

/-- `get_tools` (source lines 77-78): `return copy.deepcopy(_TOOL_DESCRIPTIONS)`. -/
def get_tools (h : Heap) (a : Nat) : Option (Heap × Nat) := deepcopyTable h a

/-- The addresses of the mutable objects reachable from a `tool_def` dict. -/
def reachTdef (h : Heap) (a : Nat) : List Nat :=
  match h.read a with
  | some (.tdefObj _ _ ps) =>
      match h.read ps with
      | some (.plistObj items) => a :: ps :: items
      | _ => [a, ps]
  | _ => [a]

/-- The addresses of the mutable objects reachable from a table: the targets a
caller holding the returned structure can mutate. -/
def reachTable (h : Heap) (a : Nat) : List Nat :=
  match h.read a with
  | some (.tableObj entries) => a :: (entries.map (fun kv => reachTdef h kv.2)).flatten
  | _ => [a]

/-- Heap extension: every address readable in `h` reads the same in `h2`.
Produced by allocation (on closed heaps) and by writes at fresh addresses. -/
def Ext (h h2 : Heap) : Prop := ∀ b, (h.read b).isSome → h2.read b = h.read b

end HeapModel

/-! ### Predicates and concrete fixtures used by the statements below -/

/-- Malformed parameter metadata, as the spec enumerates it: not a tuple, not
of length two, or a wrong-typed description or required flag.  (A two-element
tuple of a string and a bool is the well-formed shape.) -/
def badMetadata : PyObj → Prop
  | .tuple [.str _, .bool _] => False
  | _ => True

/-- A malformed parameter declaration: no annotation at all, an annotation
that is not `Annotated[...]` (so the structured metadata is missing), or
malformed metadata. -/
def malformedAnn : PyAnn → Prop
  | .empty => True
  | .plain _ => True
  | .annotated _ m _ => badMetadata m

/-- A well-formed parameter declaration: `Annotated` with a `(str, bool)`
two-element metadata tuple. -/
def wellFormedAnn (a : PyAnn) : Prop :=
  ∃ t ds rb ms, a = .annotated t (.tuple [.str ds, .bool rb]) ms

/-- The key-set invariant of the two module-level tables: `_TOOL_HOOKS` and
`_TOOL_DESCRIPTIONS` hold exactly the same keys (even in the same order,
since registration inserts into both in lockstep). -/
def keysAligned (st : RegState) : Prop :=
  st.hooks.map Prod.fst = st.descriptions.map Prod.fst

/-- An inert callable used to instantiate registration statements whose
conclusions do not depend on the hook's behaviour. -/
def stubHook : Tool := fun _ => .ok .pyNone

/-- A second inert callable, distinguishable from `stubHook`, for the
duplicate-registration statements. -/
def stubHook2 : Tool := fun _ => .ok (.str "second")

/-- A world whose collaborators all answer with the empty string; used to
instantiate statements that never consult the collaborators. -/
def stubWorld : World := ⟨fun _ => "", fun _ => "", fun _ => ""⟩

/-- A declaration whose parameter metadata is a bare string instead of a
`(description, required)` tuple. -/
def badMetaDecl : FuncDecl :=
  ⟨"bad_tool", some "doc", [("x", .annotated strClass (.str "oops") [])]⟩

/-- A declaration with no docstring at all (`inspect.getdoc` returns `None`). -/
def noDocDecl : FuncDecl := ⟨"no_doc_tool", none, []⟩

/-- A declaration whose docstring is the empty string: `__doc__` is `""`, so
`inspect.getdoc` returns `""` (not `None`). -/
def emptyDocDecl : FuncDecl :=
  ⟨"empty_doc_tool", some "", [("x", mkAnn "d" true)]⟩

/-- A first registration under the name `dup_tool`. -/
def dupDecl1 : FuncDecl :=
  ⟨"dup_tool", some "first version", [("x", mkAnn "first param" true)]⟩

/-- A second registration under the same name `dup_tool`. -/
def dupDecl2 : FuncDecl := ⟨"dup_tool", some "second version", []⟩

/-- The `tool_def` produced for `dupDecl1`. -/
def dupTd1 : ToolDef := ⟨"dup_tool", "first version", [⟨"x", "first param", "Annotated", true⟩]⟩

/-- The `tool_def` produced for `dupDecl2`. -/
def dupTd2 : ToolDef := ⟨"dup_tool", "second version", []⟩

/-- The registry after registering `dupDecl1` on the empty state. -/
def dupState1 : RegState := ⟨[("dup_tool", stubHook)], [("dup_tool", dupTd1)]⟩

/-- The registry after then registering `dupDecl2` over it. -/
def dupState2 : RegState := ⟨[("dup_tool", stubHook2)], [("dup_tool", dupTd2)]⟩

/-- One parameter dict, for the concrete heap-model instances. -/
def wParam : ParamDef := ⟨"x", "d", "Annotated", true⟩

/-- A one-tool catalog content. -/
def wContent : List (String × ToolDef) := [("t", ⟨"t", "doc", [wParam]⟩)]

/-- A concrete closed heap holding `wContent` as `_TOOL_DESCRIPTIONS`, rooted
at address 3. -/
def wHeap : HeapModel.Heap :=
  ⟨4, [(0, .paramObj wParam), (1, .plistObj [0]),
       (2, .tdefObj "t" "doc" 1), (3, .tableObj [("t", 2)])]⟩

/-- The heap produced by `get_tools` on `wHeap` (fresh copies at 4-7, root 7). -/
def wCopyHeap : HeapModel.Heap :=
  ⟨8, [(7, .tableObj [("t", 6)]), (6, .tdefObj "t" "doc" 5),
       (5, .plistObj [4]), (4, .paramObj wParam),
       (0, .paramObj wParam), (1, .plistObj [0]),
       (2, .tdefObj "t" "doc" 1), (3, .tableObj [("t", 2)])]⟩

/-! ## Helper lemmas (shared by several claim theorems) -/

theorem dictGet_insert_self {α : Type} (l : List (String × α)) (k : String) (v : α) :
    dictGet (dictInsert l k v) k = some v := by
  induction l with
  | nil => simp [dictInsert, dictGet]
  | cons p rest ih =>
      obtain ⟨pk, pv⟩ := p
      by_cases hp : pk = k
      · simp [dictInsert, hp, dictGet]
      · simp [dictInsert, hp, dictGet, ih]

theorem keys_dictInsert {α : Type} (l : List (String × α)) (k : String) (v : α) :
    (dictInsert l k v).map Prod.fst =
      if k ∈ l.map Prod.fst then l.map Prod.fst else l.map Prod.fst ++ [k] := by
  induction l with
  | nil => simp [dictInsert]
  | cons p rest ih =>
      obtain ⟨pk, pv⟩ := p
      by_cases hp : pk = k
      · simp [dictInsert, hp]
      · have hne : ¬ k = pk := fun hk => hp hk.symm
        by_cases hm : k ∈ rest.map Prod.fst
        · simp [dictInsert, hp, ih, hne, hm]
        · simp [dictInsert, hp, ih, hne, hm]

theorem nodup_keys_dictInsert {α : Type} (l : List (String × α)) (k : String) (v : α)
    (hnd : (l.map Prod.fst).Nodup) : ((dictInsert l k v).map Prod.fst).Nodup := by
  rw [keys_dictInsert]
  split
  · exact hnd
  · next hmem => simp [List.nodup_append, hnd, hmem]

theorem count_keys_dictInsert {α : Type} (l : List (String × α)) (k : String) (v : α)
    (hnd : (l.map Prod.fst).Nodup) : ((dictInsert l k v).map Prod.fst).count k = 1 := by
  rw [keys_dictInsert]
  split
  · next hmem => exact List.count_eq_one_of_mem hnd hmem
  · next hmem =>
      rw [List.count_append, List.count_eq_zero_of_not_mem hmem]
      simp

/-- `dispatch_tool` performs no writes: the state component of its result is
the input state, on every control path. -/
theorem dispatch_snd (tool_name : String) (tool_params : List (String × PyObj)) (st : RegState) :
    (dispatch_tool tool_name tool_params st).2 = st := by
  cases h : dictGet st.hooks tool_name with
  | none => simp [dispatch_tool, h]
  | some t =>
      cases ht : t tool_params with
      | ok r => simp [dispatch_tool, h, ht]
      | error e => simp [dispatch_tool, h, ht]

/-- Successful registration is exactly one lockstep insertion into both tables. -/
theorem register_tool_ok {decl : FuncDecl} {hook : Tool} {st st2 : RegState}
    (h : register_tool decl hook st = .ok st2) :
    ∃ td, mkToolDef decl = .ok td ∧
      st2 = ⟨dictInsert st.hooks decl.name hook, dictInsert st.descriptions decl.name td⟩ := by
  unfold register_tool at h
  cases htd : mkToolDef decl with
  | error e => rw [htd] at h; exact absurd h (by simp)
  | ok td =>
      rw [htd] at h
      exact ⟨td, rfl, by injection h with h2; exact h2.symm⟩

/-- A malformed annotation makes the per-parameter extraction raise `TypeError`. -/
theorem extractParam_malformed (n : String) (a : PyAnn) (hbad : malformedAnn a) :
    ∃ msg, extractParam n a = .error (.typeError msg) := by
  cases a with
  | empty => exact ⟨_, rfl⟩
  | plain t => exact ⟨_, rfl⟩
  | annotated t m ms =>
      cases m with
      | tuple items =>
          match items with
          | [] => exact ⟨_, rfl⟩
          | [x] => exact ⟨_, rfl⟩
          | x :: y :: z :: rest => exact ⟨_, rfl⟩
          | [x, y] =>
              cases x with
              | str ds =>
                  cases y with
                  | bool rb => exact absurd hbad (by simp [malformedAnn, badMetadata])
                  | str s => exact ⟨_, rfl⟩
                  | int i => exact ⟨_, rfl⟩
                  | tuple l => exact ⟨_, rfl⟩
                  | pyNone => exact ⟨_, rfl⟩
              | bool b => exact ⟨_, rfl⟩
              | int i => exact ⟨_, rfl⟩
              | tuple l => exact ⟨_, rfl⟩
              | pyNone => exact ⟨_, rfl⟩
      | str s => exact ⟨_, rfl⟩
      | bool b => exact ⟨_, rfl⟩
      | int i => exact ⟨_, rfl⟩
      | pyNone => exact ⟨_, rfl⟩

/-- Every raise in the per-parameter processing is a `TypeError`. -/
theorem extractParam_error_typeError (n : String) (a : PyAnn) (e : PyErr)
    (h : extractParam n a = .error e) : ∃ msg, e = .typeError msg := by
  cases a with
  | empty => simp [extractParam] at h; exact ⟨_, h.symm⟩
  | plain t => simp [extractParam] at h; exact ⟨_, h.symm⟩
  | annotated t m ms =>
      cases m with
      | tuple items =>
          match items with
          | [] => simp [extractParam] at h; exact ⟨_, h.symm⟩
          | [x] => simp [extractParam] at h; exact ⟨_, h.symm⟩
          | x :: y :: z :: rest => simp [extractParam] at h; exact ⟨_, h.symm⟩
          | [x, y] =>
              cases x with
              | str ds =>
                  cases y with
                  | bool rb => simp [extractParam] at h
                  | str s => simp [extractParam] at h; exact ⟨_, h.symm⟩
                  | int i => simp [extractParam] at h; exact ⟨_, h.symm⟩
                  | tuple l => simp [extractParam] at h; exact ⟨_, h.symm⟩
                  | pyNone => simp [extractParam] at h; exact ⟨_, h.symm⟩
              | bool b => simp [extractParam] at h; exact ⟨_, h.symm⟩
              | int i => simp [extractParam] at h; exact ⟨_, h.symm⟩
              | tuple l => simp [extractParam] at h; exact ⟨_, h.symm⟩
              | pyNone => simp [extractParam] at h; exact ⟨_, h.symm⟩
      | str s => simp [extractParam] at h; exact ⟨_, h.symm⟩
      | bool b => simp [extractParam] at h; exact ⟨_, h.symm⟩
      | int i => simp [extractParam] at h; exact ⟨_, h.symm⟩
      | pyNone => simp [extractParam] at h; exact ⟨_, h.symm⟩

/-- If any declared parameter is malformed, the whole parameter loop raises
`TypeError` (the first raise aborts it). -/
theorem extractParams_malformed (params : List (String × PyAnn))
    (hbad : ∃ pa ∈ params, malformedAnn pa.2) :
    ∃ msg, extractParams params = .error (.typeError msg) := by
  induction params with
  | nil => exact absurd hbad (by simp)
  | cons p rest ih =>
      obtain ⟨pk, pa⟩ := p
      obtain ⟨q, hq, hqbad⟩ := hbad
      rcases List.mem_cons.mp hq with hhead | htail
      · subst hhead
        obtain ⟨msg, hmsg⟩ := extractParam_malformed pk pa hqbad
        exact ⟨msg, by simp [extractParams, hmsg]⟩
      · cases hp : extractParam pk pa with
        | error e =>
            obtain ⟨msg, hmsg⟩ := extractParam_error_typeError pk pa e hp
            exact ⟨msg, by simp [extractParams, hp, hmsg]⟩
        | ok pd =>
            obtain ⟨msg, hmsg⟩ := ih ⟨q, htail, hqbad⟩
            exact ⟨msg, by simp [extractParams, hp, hmsg]⟩

/-! ## Heap lemmas for the `get_tools` deep-copy claim -/

namespace HeapModel

theorem read_alloc_self (h : Heap) (o : HObj) :
    (h.alloc o).1.read (h.alloc o).2 = some o := by
  simp [Heap.read, Heap.alloc, List.find?_cons]

theorem read_alloc_ne (h : Heap) (o : HObj) (b : Nat) (hne : b ≠ h.nextAddr) :
    (h.alloc o).1.read b = h.read b := by
  simp [Heap.read, Heap.alloc, List.find?_cons, beq_iff_eq, Ne.symm hne]

theorem read_write_ne (h : Heap) (a b : Nat) (o : HObj) (hne : a ≠ b) :
    (h.write a o).read b = h.read b := by
  simp [Heap.read, Heap.write, List.find?_cons, beq_iff_eq, hne]

theorem closed_alloc (h : Heap) (o : HObj) (hc : h.closed) : (h.alloc o).1.closed := by
  intro c hmem
  rcases List.mem_cons.mp hmem with hcase | hcase
  · rw [hcase]; exact Nat.lt_succ_self _
  · exact Nat.lt_succ_of_lt (hc c hcase)

theorem closed_write (h : Heap) (b : Nat) (o : HObj) (hc : h.closed) (hb : b < h.nextAddr) :
    (h.write b o).closed := by
  intro c hmem
  rcases List.mem_cons.mp hmem with hcase | hcase
  · rw [hcase]; exact hb
  · exact hc c hcase

theorem read_isSome_lt (h : Heap) (b : Nat) (hc : h.closed) (hs : (h.read b).isSome) :
    b < h.nextAddr := by
  unfold Heap.read at hs
  cases hf : h.cells.find? (fun c => c.1 == b) with
  | none => rw [hf] at hs; simp at hs
  | some c =>
      have hb : c.1 = b := by
        have hpc := List.find?_some hf
        simpa [beq_iff_eq] using hpc
      rw [← hb]
      exact hc c (List.mem_of_find?_eq_some hf)

theorem ext_refl (h : Heap) : Ext h h := fun _ _ => rfl

theorem ext_trans {h1 h2 h3 : Heap} (e12 : Ext h1 h2) (e23 : Ext h2 h3) : Ext h1 h3 := by
  intro b hs
  have h12 := e12 b hs
  have hs2 : (h2.read b).isSome := by rw [h12]; exact hs
  rw [e23 b hs2, h12]

theorem ext_alloc (h : Heap) (o : HObj) (hc : h.closed) : Ext h (h.alloc o).1 := by
  intro b hs
  exact read_alloc_ne h o b (Nat.ne_of_lt (read_isSome_lt h b hc hs))

/-- Writing at an address at or above the allocation bound of `h` cannot be
seen by any read that succeeds in `h` (given `Ext h h2`). -/
theorem ext_write_high {h h2 : Heap} (e : Ext h h2) (hc : h.closed) (b : Nat) (o : HObj)
    (hb : h.nextAddr ≤ b) : Ext h (h2.write b o) := by
  intro c hs
  have hcb : c ≠ b := Nat.ne_of_lt (Nat.lt_of_lt_of_le (read_isSome_lt h c hc hs) hb)
  rw [read_write_ne h2 b c o (Ne.symm hcb)]
  exact e c hs

theorem dumpParam_ext {h h2 : Heap} (e : Ext h h2) {a : Nat} {p : ParamDef}
    (hd : dumpParam h a = some p) : dumpParam h2 a = some p := by
  unfold dumpParam at hd ⊢
  split at hd
  next q hr =>
    have hs : (h.read a).isSome := by rw [hr]; rfl
    rw [e a hs, hr]
    exact hd
  next => exact absurd hd (by simp)

theorem dumpParams_ext {h h2 : Heap} (e : Ext h h2) :
    ∀ {items : List Nat} {l : List ParamDef},
      dumpParams h items = some l → dumpParams h2 items = some l := by
  intro items
  induction items with
  | nil => intro l hd; simpa [dumpParams] using hd
  | cons a rest ih =>
      intro l hd
      unfold dumpParams at hd
      split at hd
      · exact absurd hd (by simp)
      next p hp =>
        split at hd
        · exact absurd hd (by simp)
        next ps hps =>
          obtain rfl : p :: ps = l := Option.some.inj hd
          simp [dumpParams, dumpParam_ext e hp, ih hps]

theorem dumpTdef_ext {h h2 : Heap} (e : Ext h h2) {a : Nat} {td : ToolDef}
    (hd : dumpTdef h a = some td) : dumpTdef h2 a = some td := by
  unfold dumpTdef at hd ⊢
  split at hd
  next n d ps hr =>
    have hs : (h.read a).isSome := by rw [hr]; rfl
    simp only [e a hs, hr]
    split at hd
    next items hr2 =>
      have hs2 : (h.read ps).isSome := by rw [hr2]; rfl
      simp only [e ps hs2, hr2]
      cases hps : dumpParams h items with
      | none => rw [hps] at hd; exact absurd hd (by simp)
      | some l =>
          rw [hps] at hd
          rw [dumpParams_ext e hps]
          exact hd
    next => exact absurd hd (by simp)
  next => exact absurd hd (by simp)

theorem dumpEntries_ext {h h2 : Heap} (e : Ext h h2) :
    ∀ {entries : List (String × Nat)} {l : List (String × ToolDef)},
      dumpEntries h entries = some l → dumpEntries h2 entries = some l := by
  intro entries
  induction entries with
  | nil => intro l hd; simpa [dumpEntries] using hd
  | cons kv rest ih =>
      intro l hd
      obtain ⟨k, a⟩ := kv
      unfold dumpEntries at hd
      split at hd
      · exact absurd hd (by simp)
      next td htd =>
        split at hd
        · exact absurd hd (by simp)
        next tds htds =>
          obtain rfl : (k, td) :: tds = l := Option.some.inj hd
          simp [dumpEntries, dumpTdef_ext e htd, ih htds]

theorem dumpTable_ext {h h2 : Heap} (e : Ext h h2) {a : Nat} {l : List (String × ToolDef)}
    (hd : dumpTable h a = some l) : dumpTable h2 a = some l := by
  unfold dumpTable at hd ⊢
  split at hd
  next entries hr =>
    have hs : (h.read a).isSome := by rw [hr]; rfl
    rw [e a hs, hr]
    exact dumpEntries_ext e hd
  next => exact absurd hd (by simp)

/-- Reachability from a `tool_def` is determined by reads that its dump also
performs, so it transports along `Ext`. -/
theorem reachTdef_ext {h h2 : Heap} (e : Ext h h2) {a : Nat}
    (hd : (dumpTdef h a).isSome) : reachTdef h2 a = reachTdef h a := by
  unfold dumpTdef at hd
  unfold reachTdef
  split at hd
  next n d ps hr =>
    have hs : (h.read a).isSome := by rw [hr]; rfl
    simp only [e a hs, hr]
    split at hd
    next items hr2 =>
      have hs2 : (h.read ps).isSome := by rw [hr2]; rfl
      simp only [e ps hs2, hr2]
    next => exact absurd hd (by simp)
  next => exact absurd hd (by simp)

theorem dumpEntries_mem_isSome {h : Heap} :
    ∀ {entries : List (String × Nat)} {l : List (String × ToolDef)},
      dumpEntries h entries = some l → ∀ kv ∈ entries, (dumpTdef h kv.2).isSome := by
  intro entries
  induction entries with
  | nil => intro l _ kv hkv; exact absurd hkv (by simp)
  | cons kv0 rest ih =>
      intro l hd kv hkv
      obtain ⟨k, a⟩ := kv0
      unfold dumpEntries at hd
      split at hd
      · exact absurd hd (by simp)
      next td htd =>
        split at hd
        · exact absurd hd (by simp)
        next tds htds =>
          rcases List.mem_cons.mp hkv with hkv0 | hkvr
          · rw [hkv0]; rw [htd]; rfl
          · exact ih htds kv hkvr

theorem alloc_nextAddr (h : Heap) (o : HObj) : (h.alloc o).1.nextAddr = h.nextAddr + 1 := rfl

theorem alloc_addr (h : Heap) (o : HObj) : (h.alloc o).2 = h.nextAddr := rfl

theorem copyParam_spec {h : Heap} {a : Nat} {h1 : Heap} {a1 : Nat}
    (hc : h.closed) (hcp : copyParam h a = some (h1, a1)) :
    h1.closed ∧ Ext h h1 ∧ h.nextAddr ≤ h1.nextAddr ∧
    h.nextAddr ≤ a1 ∧ a1 < h1.nextAddr ∧
    dumpParam h1 a1 = dumpParam h a := by
  unfold copyParam at hcp
  split at hcp
  next p hr =>
    have h1eq : (h.alloc (HObj.paramObj p)).1 = h1 :=
      congrArg Prod.fst (Option.some.inj hcp)
    have a1eq : (h.alloc (HObj.paramObj p)).2 = a1 :=
      congrArg Prod.snd (Option.some.inj hcp)
    subst h1eq
    subst a1eq
    refine ⟨closed_alloc h _ hc, ext_alloc h _ hc, ?_, ?_, ?_, ?_⟩
    · rw [alloc_nextAddr]; omega
    · rw [alloc_addr]
    · rw [alloc_nextAddr, alloc_addr]; omega
    · unfold dumpParam
      rw [read_alloc_self, hr]
  next => exact absurd hcp (by simp)

theorem copyParams_spec :
    ∀ {items : List Nat} {l : List ParamDef} {h h1 : Heap} {items1 : List Nat},
      h.closed → dumpParams h items = some l → copyParams h items = some (h1, items1) →
      h1.closed ∧ Ext h h1 ∧ h.nextAddr ≤ h1.nextAddr ∧
      (∀ b ∈ items1, h.nextAddr ≤ b ∧ b < h1.nextAddr) ∧
      dumpParams h1 items1 = some l := by
  intro items
  induction items with
  | nil =>
      intro l h h1 items1 hc hd hcp
      obtain ⟨rfl, rfl⟩ := Prod.mk.inj (Option.some.inj hcp)
      exact ⟨hc, ext_refl h, Nat.le_refl _, by simp, hd⟩
  | cons a rest ih =>
      intro l h h1 items1 hc hd hcp
      unfold dumpParams at hd
      split at hd
      · exact absurd hd (by simp)
      next p hp =>
        split at hd
        · exact absurd hd (by simp)
        next ps hps =>
          obtain rfl : p :: ps = l := Option.some.inj hd
          unfold copyParams at hcp
          split at hcp
          · exact absurd hcp (by simp)
          next hA aA hcpA =>
            split at hcp
            · exact absurd hcp (by simp)
            next hB restB hcpB =>
              obtain ⟨rfl, rfl⟩ := Prod.mk.inj (Option.some.inj hcp)
              obtain ⟨hAc, hAe, hAn, hAlo, hAhi, hAdump⟩ := copyParam_spec hc hcpA
              rw [hp] at hAdump
              obtain ⟨hBc, hBe, hBn, hBbounds, hBdump⟩ :=
                ih hAc (dumpParams_ext hAe hps) hcpB
              refine ⟨hBc, ext_trans hAe hBe, Nat.le_trans hAn hBn, ?_, ?_⟩
              · intro b hbmem
                rcases List.mem_cons.mp hbmem with hb0 | hbr
                · rw [hb0]; exact ⟨hAlo, Nat.lt_of_lt_of_le hAhi hBn⟩
                · obtain ⟨hl, hh⟩ := hBbounds b hbr
                  exact ⟨Nat.le_trans hAn hl, hh⟩
              · simp [dumpParams, dumpParam_ext hBe hAdump, hBdump]

theorem copyTdef_spec {h : Heap} {a : Nat} {td : ToolDef} {h1 : Heap} {a1 : Nat}
    (hc : h.closed) (hd : dumpTdef h a = some td) (hcp : copyTdef h a = some (h1, a1)) :
    h1.closed ∧ Ext h h1 ∧ h.nextAddr ≤ h1.nextAddr ∧
    (∀ b ∈ reachTdef h1 a1, h.nextAddr ≤ b ∧ b < h1.nextAddr) ∧
    dumpTdef h1 a1 = some td := by
  unfold dumpTdef at hd
  unfold copyTdef at hcp
  split at hd
  next n d ps hr =>
    simp only [hr] at hcp
    split at hd
    next items hr2 =>
      simp only [hr2] at hcp
      cases hps : dumpParams h items with
      | none => rw [hps] at hd; exact absurd hd (by simp)
      | some l =>
          rw [hps] at hd
          simp only [Option.map] at hd
          obtain rfl : (⟨n, d, l⟩ : ToolDef) = td := Option.some.inj hd
          split at hcp
          · exact absurd hcp (by simp)
          next hP items1 hcpP =>
            have hcp2 :
                some (((hP.alloc (.plistObj items1)).1.alloc
                         (.tdefObj n d (hP.alloc (.plistObj items1)).2)).1,
                      ((hP.alloc (.plistObj items1)).1.alloc
                         (.tdefObj n d (hP.alloc (.plistObj items1)).2)).2)
                  = some (h1, a1) := hcp
            obtain ⟨rfl, rfl⟩ := Prod.mk.inj (Option.some.inj hcp2)
            obtain ⟨hPc, hPe, hPn, hPbounds, hPdump⟩ := copyParams_spec hc hps hcpP
            have hQc := closed_alloc hP (.plistObj items1) hPc
            have hQe := ext_alloc hP (.plistObj items1) hPc
            have h1c := closed_alloc (hP.alloc (.plistObj items1)).1
              (.tdefObj n d (hP.alloc (.plistObj items1)).2) hQc
            have h1e := ext_alloc (hP.alloc (.plistObj items1)).1
              (.tdefObj n d (hP.alloc (.plistObj items1)).2) hQc
            have hrtd :
                ((hP.alloc (.plistObj items1)).1.alloc
                   (.tdefObj n d (hP.alloc (.plistObj items1)).2)).1.read
                  ((hP.alloc (.plistObj items1)).1.alloc
                     (.tdefObj n d (hP.alloc (.plistObj items1)).2)).2
                  = some (.tdefObj n d (hP.alloc (.plistObj items1)).2) :=
              read_alloc_self _ _
            have hrps :
                ((hP.alloc (.plistObj items1)).1.alloc
                   (.tdefObj n d (hP.alloc (.plistObj items1)).2)).1.read
                  (hP.alloc (.plistObj items1)).2
                  = some (.plistObj items1) := by
              rw [read_alloc_ne (hP.alloc (.plistObj items1)).1
                    (.tdefObj n d (hP.alloc (.plistObj items1)).2)
                    (hP.alloc (.plistObj items1)).2
                    (by rw [alloc_addr, alloc_nextAddr]; omega)]
              exact read_alloc_self _ _
            refine ⟨h1c, ext_trans hPe (ext_trans hQe h1e), ?_, ?_, ?_⟩
            · rw [alloc_nextAddr, alloc_nextAddr]; omega
            · intro b hbmem
              unfold reachTdef at hbmem
              simp only [hrtd, hrps] at hbmem
              rcases List.mem_cons.mp hbmem with hb0 | hbmem2
              · subst hb0
                rw [alloc_addr, alloc_nextAddr, alloc_nextAddr, alloc_nextAddr]
                omega
              · rcases List.mem_cons.mp hbmem2 with hb1 | hbmem3
                · subst hb1
                  rw [alloc_addr, alloc_nextAddr, alloc_nextAddr]
                  omega
                · obtain ⟨hl, hh⟩ := hPbounds b hbmem3
                  rw [alloc_nextAddr, alloc_nextAddr]
                  omega
            · unfold dumpTdef
              simp only [hrtd, hrps]
              rw [dumpParams_ext (ext_trans hQe h1e) hPdump]
              rfl
    next => exact absurd hd (by simp)
  next => exact absurd hd (by simp)

theorem copyEntries_spec :
    ∀ {entries : List (String × Nat)} {l : List (String × ToolDef)} {h h1 : Heap}
      {entries1 : List (String × Nat)},
      h.closed → dumpEntries h entries = some l → copyEntries h entries = some (h1, entries1) →
      h1.closed ∧ Ext h h1 ∧ h.nextAddr ≤ h1.nextAddr ∧
      (∀ kv ∈ entries1, (dumpTdef h1 kv.2).isSome ∧
        ∀ b ∈ reachTdef h1 kv.2, h.nextAddr ≤ b ∧ b < h1.nextAddr) ∧
      dumpEntries h1 entries1 = some l := by
  intro entries
  induction entries with
  | nil =>
      intro l h h1 entries1 hc hd hcp
      obtain ⟨rfl, rfl⟩ := Prod.mk.inj (Option.some.inj hcp)
      exact ⟨hc, ext_refl h, Nat.le_refl _, by simp, hd⟩
  | cons kv0 rest ih =>
      intro l h h1 entries1 hc hd hcp
      obtain ⟨k, a⟩ := kv0
      unfold dumpEntries at hd
      split at hd
      · exact absurd hd (by simp)
      next td htd =>
        split at hd
        · exact absurd hd (by simp)
        next tds htds =>
          obtain rfl : (k, td) :: tds = l := Option.some.inj hd
          unfold copyEntries at hcp
          split at hcp
          · exact absurd hcp (by simp)
          next hA aA hcpA =>
            split at hcp
            · exact absurd hcp (by simp)
            next hB restB hcpB =>
              obtain ⟨rfl, rfl⟩ := Prod.mk.inj (Option.some.inj hcp)
              obtain ⟨hAc, hAe, hAn, hAreach, hAdump⟩ := copyTdef_spec hc htd hcpA
              obtain ⟨hBc, hBe, hBn, hBreach, hBdump⟩ :=
                ih hAc (dumpEntries_ext hAe htds) hcpB
              have hAdumpB : dumpTdef hB aA = some td := dumpTdef_ext hBe hAdump
              have hreachEq : reachTdef hB aA = reachTdef hA aA :=
                reachTdef_ext hBe (by rw [hAdump]; rfl)
              refine ⟨hBc, ext_trans hAe hBe, Nat.le_trans hAn hBn, ?_, ?_⟩
              · intro kv hkv
                rcases List.mem_cons.mp hkv with hkv0 | hkvr
                · subst hkv0
                  refine ⟨by rw [hAdumpB]; rfl, ?_⟩
                  intro b hbmem
                  rw [hreachEq] at hbmem
                  obtain ⟨hl, hh⟩ := hAreach b hbmem
                  exact ⟨hl, Nat.lt_of_lt_of_le hh hBn⟩
                · obtain ⟨hsome, hbound⟩ := hBreach kv hkvr
                  refine ⟨hsome, fun b hbm => ?_⟩
                  obtain ⟨hl, hh⟩ := hbound b hbm
                  exact ⟨Nat.le_trans hAn hl, hh⟩
              · simp [dumpEntries, hAdumpB, hBdump]

theorem deepcopyTable_spec {h : Heap} {a : Nat} {content : List (String × ToolDef)}
    {h1 : Heap} {a1 : Nat}
    (hc : h.closed) (hd : dumpTable h a = some content)
    (hcp : deepcopyTable h a = some (h1, a1)) :
    h1.closed ∧ Ext h h1 ∧ h.nextAddr ≤ h1.nextAddr ∧
    (∀ b ∈ reachTable h1 a1, h.nextAddr ≤ b ∧ b < h1.nextAddr) ∧
    dumpTable h1 a1 = some content := by
  unfold dumpTable at hd
  unfold deepcopyTable at hcp
  split at hd
  next entries hr =>
    simp only [hr] at hcp
    split at hcp
    · exact absurd hcp (by simp)
    next hE entries1 hcpE =>
      have h1eq : (hE.alloc (HObj.tableObj entries1)).1 = h1 :=
        congrArg Prod.fst (Option.some.inj hcp)
      have a1eq : (hE.alloc (HObj.tableObj entries1)).2 = a1 :=
        congrArg Prod.snd (Option.some.inj hcp)
      subst h1eq
      subst a1eq
      obtain ⟨hEc, hEe, hEn, hEreach, hEdump⟩ := copyEntries_spec hc hd hcpE
      have hTe := ext_alloc hE (HObj.tableObj entries1) hEc
      have hra1 : (hE.alloc (HObj.tableObj entries1)).1.read
          (hE.alloc (HObj.tableObj entries1)).2 = some (HObj.tableObj entries1) :=
        read_alloc_self hE _
      refine ⟨closed_alloc hE _ hEc, ext_trans hEe hTe, ?_, ?_, ?_⟩
      · rw [alloc_nextAddr]; omega
      · intro b hbmem
        unfold reachTable at hbmem
        simp only [hra1] at hbmem
        rcases List.mem_cons.mp hbmem with hb0 | hbflat
        · subst hb0
          rw [alloc_addr, alloc_nextAddr]
          omega
        · rw [List.mem_flatten] at hbflat
          obtain ⟨ll, hll, hbll⟩ := hbflat
          rw [List.mem_map] at hll
          obtain ⟨kv, hkv, hlleq⟩ := hll
          obtain ⟨hsome, hbound⟩ := hEreach kv hkv
          have hre : reachTdef (hE.alloc (HObj.tableObj entries1)).1 kv.2
              = reachTdef hE kv.2 := reachTdef_ext hTe hsome
          rw [← hlleq, hre] at hbll
          obtain ⟨hl, hh⟩ := hbound b hbll
          refine ⟨hl, ?_⟩
          rw [alloc_nextAddr]
          omega
      · unfold dumpTable
        simp only [hra1]
        exact dumpEntries_ext hTe hEdump
  next => exact absurd hd (by simp)

theorem copyParam_total {h : Heap} {a : Nat} {p : ParamDef} (hd : dumpParam h a = some p) :
    ∃ r, copyParam h a = some r := by
  unfold dumpParam at hd
  split at hd
  next q hr => exact ⟨h.alloc (HObj.paramObj q), by simp [copyParam, hr]⟩
  next => exact absurd hd (by simp)

theorem copyParams_total :
    ∀ {items : List Nat} {l : List ParamDef} {h : Heap}, h.closed →
      dumpParams h items = some l → ∃ r, copyParams h items = some r := by
  intro items
  induction items with
  | nil => intro l h _ _; exact ⟨(h, []), rfl⟩
  | cons a rest ih =>
      intro l h hc hd
      unfold dumpParams at hd
      split at hd
      · exact absurd hd (by simp)
      next p hp =>
        split at hd
        · exact absurd hd (by simp)
        next ps hps =>
          obtain ⟨r1, hr1⟩ := copyParam_total hp
          obtain ⟨hA, a1⟩ := r1
          obtain ⟨hAc, hAe, _, _, _, _⟩ := copyParam_spec hc hr1
          obtain ⟨r2, hr2⟩ := ih hAc (dumpParams_ext hAe hps)
          obtain ⟨hB, rest1⟩ := r2
          exact ⟨(hB, a1 :: rest1), by simp [copyParams, hr1, hr2]⟩

theorem copyTdef_total {h : Heap} {a : Nat} {td : ToolDef}
    (hc : h.closed) (hd : dumpTdef h a = some td) : ∃ r, copyTdef h a = some r := by
  unfold dumpTdef at hd
  split at hd
  next n d ps hr =>
    split at hd
    next items hr2 =>
      cases hps : dumpParams h items with
      | none => rw [hps] at hd; exact absurd hd (by simp)
      | some l =>
          obtain ⟨r1, hr1⟩ := copyParams_total hc hps
          obtain ⟨hP, items1⟩ := r1
          refine ⟨((hP.alloc (.plistObj items1)).1.alloc
              (.tdefObj n d (hP.alloc (.plistObj items1)).2)), ?_⟩
          unfold copyTdef
          simp only [hr, hr2, hr1]
    next => exact absurd hd (by simp)
  next => exact absurd hd (by simp)

theorem copyEntries_total :
    ∀ {entries : List (String × Nat)} {l : List (String × ToolDef)} {h : Heap}, h.closed →
      dumpEntries h entries = some l → ∃ r, copyEntries h entries = some r := by
  intro entries
  induction entries with
  | nil => intro l h _ _; exact ⟨(h, []), rfl⟩
  | cons kv0 rest ih =>
      intro l h hc hd
      obtain ⟨k, a⟩ := kv0
      unfold dumpEntries at hd
      split at hd
      · exact absurd hd (by simp)
      next td htd =>
        split at hd
        · exact absurd hd (by simp)
        next tds htds =>
          obtain ⟨r1, hr1⟩ := copyTdef_total hc htd
          obtain ⟨hA, a1⟩ := r1
          obtain ⟨hAc, hAe, _, _, _⟩ := copyTdef_spec hc htd hr1
          obtain ⟨r2, hr2⟩ := ih hAc (dumpEntries_ext hAe htds)
          obtain ⟨hB, rest1⟩ := r2
          exact ⟨(hB, (k, a1) :: rest1), by simp [copyEntries, hr1, hr2]⟩

theorem deepcopyTable_total {h : Heap} {a : Nat} {content : List (String × ToolDef)}
    (hc : h.closed) (hd : dumpTable h a = some content) :
    ∃ r, deepcopyTable h a = some r := by
  unfold dumpTable at hd
  split at hd
  next entries hr =>
    obtain ⟨r1, hr1⟩ := copyEntries_total hc hd
    obtain ⟨hE, entries1⟩ := r1
    refine ⟨hE.alloc (.tableObj entries1), ?_⟩
    unfold deepcopyTable
    simp only [hr, hr1]
  next => exact absurd hd (by simp)

end HeapModel

/-! ## Claim theorems -/

/-- Claim C1 (code bug witness): registering `get_weather` — whose only
parameter is declared `Annotated[str, ("The name of the city to be queried", True)]`
— succeeds and stores declaration order and the exact description and required
flag, but the recorded type tag is `"Annotated"` (the `__name__` of the class
`typing.Annotated`, which is what `get_origin(annotation)` on line 34
evaluates to), not the simple type's name `"str"` as the claim states. -/
theorem register_type_tag_is_Annotated (w : World) :
    (register_tool get_weather_decl (get_weather_hook w) emptyState).toOption.map
        (fun st => dictGet st.descriptions "get_weather")
      = some (some ⟨"get_weather", "Get the current weather for `city_name`",
                    [⟨"city_name", "The name of the city to be queried", "Annotated", true⟩]⟩) ∧
    annotatedClassName ≠ "str" :=
  ⟨rfl, by decide⟩

/-- Claim C2: `dispatch_tool` never raises — its every path yields a string
and hands back the registry unchanged; when the registered callable raises,
the returned string is the formatted traceback (which contains the fault's
`TypeName: message` diagnostic line), and subsequent dispatches behave exactly
as before the failing call. -/
theorem dispatch_never_raises (st : RegState) (n : String) (p : List (String × PyObj)) :
    (dispatch_tool n p st).2 = st ∧
    (∀ t e, dictGet st.hooks n = some t → t p = .error e →
        (dispatch_tool n p st).1 = format_exc e ∧
        containsSub (dispatch_tool n p st).1 (excLine e)) ∧
    (∀ n2 p2, dispatch_tool n2 p2 (dispatch_tool n p st).2 = dispatch_tool n2 p2 st) := by
  refine ⟨dispatch_snd n p st, ?_, ?_⟩
  · intro t e hl he
    have h1 : (dispatch_tool n p st).1 = format_exc e := by
      simp [dispatch_tool, hl, he, pyStr]
    refine ⟨h1, ?_⟩
    rw [h1]
    exact ⟨excHeader.data, "\n".data, by
      simp only [format_exc, String.data_append, List.append_assoc]⟩
  · intro n2 p2
    rw [dispatch_snd]

/-- Claim C2 witness: dispatching `generate_md5` with an integer argument
makes the tool body raise `TypeError`; the dispatcher returns the traceback
string and the registry is unchanged. -/
theorem dispatch_never_raises_witness :
    (dispatch_tool "generate_md5" [("input_string", PyObj.int 7)] (initState stubWorld)).1
        = format_exc (.typeError "Input string must be a string") ∧
    (dispatch_tool "generate_md5" [("input_string", PyObj.int 7)] (initState stubWorld)).2
        = initState stubWorld :=
  ⟨((dispatch_never_raises (initState stubWorld) "generate_md5"
        [("input_string", PyObj.int 7)]).2.1
      generate_md5_hook (.typeError "Input string must be a string") rfl rfl).1,
   (dispatch_never_raises (initState stubWorld) "generate_md5"
        [("input_string", PyObj.int 7)]).1⟩

/-- Claim C3: a declaration (with a docstring) containing any malformed
parameter — missing annotation, annotation without the structured metadata,
metadata that is not a two-element tuple, or a wrong-typed description or
required flag — fails registration with a `SchemaError` (realised as
`TypeError` in the source), and no state results: both tables are exactly as
before, with no partial entry (the source writes them only after the whole
loop succeeds). -/
theorem register_malformed_fails (decl : FuncDecl) (hook : Tool) (st : RegState) (d : String)
    (hdoc : decl.doc = some d)
    (hbad : ∃ pa ∈ decl.params, malformedAnn pa.2) :
    (∃ msg, register_tool decl hook st = .error (SchemaError msg)) ∧
    (∀ st2, register_tool decl hook st ≠ .ok st2) := by
  obtain ⟨msg, hmsg⟩ := extractParams_malformed decl.params hbad
  have hreg : register_tool decl hook st = .error (.typeError msg) := by
    simp [register_tool, mkToolDef, getdocStripped, hdoc, hmsg]
  exact ⟨⟨msg, hreg⟩, fun st2 h => by rw [hreg] at h; exact absurd h (by simp)⟩

/-- Claim C3 witness: a declaration whose parameter metadata is a bare string
(not a `(description, required)` tuple) is rejected with a `SchemaError` and
never produces a state. -/
theorem register_malformed_fails_witness :
    (∃ msg, register_tool badMetaDecl stubHook emptyState = .error (SchemaError msg)) ∧
    (∀ st2, register_tool badMetaDecl stubHook emptyState ≠ .ok st2) :=
  register_malformed_fails badMetaDecl stubHook emptyState "doc" rfl
    ⟨("x", PyAnn.annotated strClass (.str "oops") []), by simp [badMetaDecl], trivial⟩

/-- Claim C4: dispatching a name with no hook entry returns the user-facing
string stating that the tool was not found — a normal return value containing
"not found", with the registry untouched and no exception involved. -/
theorem dispatch_unknown_tool (st : RegState) (n : String) (p : List (String × PyObj))
    (hn : dictGet st.hooks n = none) :
    dispatch_tool n p st
        = ("Tool `" ++ n ++ "` not found. Please use a provided tool.", st) ∧
    containsSub (dispatch_tool n p st).1 "not found" := by
  have hd : dispatch_tool n p st
      = ("Tool `" ++ n ++ "` not found. Please use a provided tool.", st) := by
    simp [dispatch_tool, hn]
  refine ⟨hd, ?_⟩
  rw [hd]
  exact ⟨"Tool `".data ++ n.data ++ "` ".data, ". Please use a provided tool.".data, by
    simp only [String.data_append, List.append_assoc]
    rfl⟩

/-- Claim C4 witness: the spec's own example, `dispatch("nonexistent_tool", {})`. -/
theorem dispatch_unknown_tool_witness :
    dispatch_tool "nonexistent_tool" [] emptyState
        = ("Tool `nonexistent_tool` not found. Please use a provided tool.", emptyState) ∧
    containsSub (dispatch_tool "nonexistent_tool" [] emptyState).1 "not found" :=
  dispatch_unknown_tool emptyState "nonexistent_tool" [] rfl

/-- Claim C5: registering a second tool under an existing name is
last-write-wins: afterwards the hook table and the description table resolve
the name to the second tool's callable and `tool_def`, and each table carries
exactly one entry for that name — no trace of the first registration, and no
collision error (registration returned `.ok`). -/
theorem register_same_name_overwrites (st st1 st2 : RegState) (d1 d2 : FuncDecl)
    (hk1 hk2 : Tool) (td2 : ToolDef)
    (hname : d1.name = d2.name)
    (hnd : (st.hooks.map Prod.fst).Nodup) (hnd' : (st.descriptions.map Prod.fst).Nodup)
    (hr1 : register_tool d1 hk1 st = .ok st1)
    (hr2 : register_tool d2 hk2 st1 = .ok st2)
    (htd2 : mkToolDef d2 = .ok td2) :
    dictGet st2.hooks d1.name = some hk2 ∧
    dictGet st2.descriptions d1.name = some td2 ∧
    (st2.hooks.map Prod.fst).count d1.name = 1 ∧
    (st2.descriptions.map Prod.fst).count d1.name = 1 := by
  obtain ⟨td1, htd1, hst1⟩ := register_tool_ok hr1
  obtain ⟨td2', htd2', hst2⟩ := register_tool_ok hr2
  rw [htd2] at htd2'
  have heq : td2' = td2 := (Except.ok.inj htd2').symm
  subst heq
  subst hst1
  subst hst2
  rw [hname]
  refine ⟨dictGet_insert_self _ _ _, dictGet_insert_self _ _ _, ?_, ?_⟩
  · exact count_keys_dictInsert _ _ _ (nodup_keys_dictInsert _ _ _ hnd)
  · exact count_keys_dictInsert _ _ _ (nodup_keys_dictInsert _ _ _ hnd')

/-- Claim C5 witness: registering `dup_tool` twice on the empty registry ends
with exactly the second callable and second `tool_def` under that name. -/
theorem register_same_name_overwrites_witness :
    dictGet dupState2.hooks "dup_tool" = some stubHook2 ∧
    dictGet dupState2.descriptions "dup_tool" = some dupTd2 ∧
    (dupState2.hooks.map Prod.fst).count "dup_tool" = 1 ∧
    (dupState2.descriptions.map Prod.fst).count "dup_tool" = 1 :=
  register_same_name_overwrites emptyState dupState1 dupState2 dupDecl1 dupDecl2
    stubHook stubHook2 dupTd2 rfl List.nodup_nil List.nodup_nil rfl rfl rfl

/-- Claim C7: dispatching `generate_md5` on `"abc"` returns exactly the hex
digest `900150983cd24fb0d6963f7d28e17f72` (whatever the external
collaborators do), leaving the registry unchanged. -/
theorem dispatch_generate_md5_abc (w : World) :
    dispatch_tool "generate_md5" [("input_string", .str "abc")] (initState w)
      = ("900150983cd24fb0d6963f7d28e17f72", initState w) := rfl

/-- Claim C8 counterexample: a callable whose docstring is the empty string
registers successfully — the stored description is `""` — so registration
does not require a non-empty description and raises no
`SchemaError("missing description")` for it. -/
theorem register_empty_description_accepted :
    (register_tool emptyDocDecl stubHook emptyState).toOption.map
        (fun st => (dictGet st.descriptions "empty_doc_tool").map ToolDef.description)
      = some (some "") := rfl

/-- Claim C8 amended: with no docstring at all, registration fails — but with
an `AttributeError` from `None.strip()`, not a `SchemaError("missing
description")`; and an empty (or all-whitespace) docstring is accepted:
whenever the parameter loop succeeds, registration succeeds and stores the
stripped docstring, empty or not. -/
theorem register_description_behavior :
    (∀ decl hook st, decl.doc = none →
        register_tool decl hook st
          = .error (.attributeError "'NoneType' object has no attribute 'strip'")) ∧
    (∀ decl hook st d ps, decl.doc = some d → extractParams decl.params = .ok ps →
        register_tool decl hook st
          = .ok ⟨dictInsert st.hooks decl.name hook,
                 dictInsert st.descriptions decl.name ⟨decl.name, pyStrip d, ps⟩⟩) := by
  constructor
  · intro decl hook st hdoc
    simp [register_tool, mkToolDef, getdocStripped, hdoc]
  · intro decl hook st d ps hdoc hps
    simp [register_tool, mkToolDef, getdocStripped, hdoc, hps]

/-- Claim C8 amended witness: the no-docstring declaration fails with
`AttributeError`; the empty-docstring declaration registers with
description `""`. -/
theorem register_description_behavior_witness :
    register_tool noDocDecl stubHook emptyState
        = .error (.attributeError "'NoneType' object has no attribute 'strip'") ∧
    register_tool emptyDocDecl stubHook emptyState
        = .ok ⟨dictInsert emptyState.hooks "empty_doc_tool" stubHook,
               dictInsert emptyState.descriptions "empty_doc_tool"
                 ⟨"empty_doc_tool", pyStrip "", [⟨"x", "d", "Annotated", true⟩]⟩⟩ :=
  ⟨register_description_behavior.1 noDocDecl stubHook emptyState rfl,
   register_description_behavior.2 emptyDocDecl stubHook emptyState ""
     [⟨"x", "d", "Annotated", true⟩] rfl rfl⟩

/-- Claim C9: the two tables always carry the same keys: the property holds
of the empty state and of the state after module import, every successful
registration inserts into both tables under the same name and so preserves
it, and dispatch hands the state back unchanged (and `get_tools` only reads). -/
theorem registry_tables_aligned (st : RegState) (ha : keysAligned st) :
    (∀ decl hook st2, register_tool decl hook st = .ok st2 → keysAligned st2) ∧
    (∀ n p, keysAligned (dispatch_tool n p st).2) ∧
    keysAligned emptyState ∧
    (∀ w, keysAligned (initState w)) := by
  refine ⟨?_, ?_, rfl, fun w => rfl⟩
  · intro decl hook st2 hreg
    obtain ⟨td, htd, hst2⟩ := register_tool_ok hreg
    subst hst2
    show (dictInsert st.hooks decl.name hook).map Prod.fst
        = (dictInsert st.descriptions decl.name td).map Prod.fst
    rw [keys_dictInsert, keys_dictInsert, ha]
  · intro n p
    rw [dispatch_snd]
    exact ha

/-- Claim C9 witness: instantiating the invariant at the empty state and at a
concrete successful registration over it. -/
theorem registry_tables_aligned_witness :
    keysAligned dupState1 ∧ keysAligned (initState stubWorld) :=
  ⟨(registry_tables_aligned emptyState rfl).1 dupDecl1 stubHook dupState1 rfl,
   (registry_tables_aligned emptyState rfl).2.2.2 stubWorld⟩

section
open HeapModel

/-- Claim C6: `get_tools` returns the catalog as a deep, independent copy:
the returned structure reads back equal to the live table (one entry per
registered tool, with identical `tool_def` values), and for every mutation —
a write of an arbitrary object at any address reachable from the returned
structure — the live `_TOOL_DESCRIPTIONS`, rooted at its old address, reads
back unchanged, and a subsequent `get_tools` call still returns the same
catalog. -/
theorem get_tools_independent_copy (h : HeapModel.Heap) (a : Nat)
    (content : List (String × ToolDef)) (h1 : HeapModel.Heap) (a1 : Nat)
    (b : Nat) (o : HeapModel.HObj)
    (hc : h.closed) (hd : HeapModel.dumpTable h a = some content)
    (hcp : HeapModel.get_tools h a = some (h1, a1))
    (hb : b ∈ HeapModel.reachTable h1 a1) :
    HeapModel.dumpTable h1 a1 = some content ∧
    HeapModel.dumpTable (h1.write b o) a = some content ∧
    ((HeapModel.get_tools (h1.write b o) a).bind
        (fun q => HeapModel.dumpTable q.1 q.2) = some content) := by
  obtain ⟨h1c, h1e, h1n, hbounds, h1dump⟩ := deepcopyTable_spec hc hd hcp
  obtain ⟨hbl, hbu⟩ := hbounds b hb
  have hwe : Ext h (h1.write b o) := ext_write_high h1e hc b o hbl
  have hw : dumpTable (h1.write b o) a = some content := dumpTable_ext hwe hd
  have hwc : (h1.write b o).closed := closed_write h1 b o h1c hbu
  obtain ⟨r, hrr⟩ := deepcopyTable_total hwc hw
  obtain ⟨h2, a2⟩ := r
  obtain ⟨_, _, _, _, h2dump⟩ := deepcopyTable_spec hwc hw hrr
  refine ⟨h1dump, hw, ?_⟩
  rw [show get_tools (h1.write b o) a = some (h2, a2) from hrr]
  simpa using h2dump

/-- Claim C6 witness: a concrete one-tool heap; mutating the copied parameter
dict (address 4 of the copy) does not change what the live table at root 3
reads back, nor what a repeated `get_tools` returns. -/
theorem get_tools_independent_copy_witness :
    dumpTable wCopyHeap 7 = some wContent ∧
    dumpTable (wCopyHeap.write 4 (.paramObj ⟨"y", "e", "str", false⟩)) 3 = some wContent ∧
    ((get_tools (wCopyHeap.write 4 (.paramObj ⟨"y", "e", "str", false⟩)) 3).bind
        (fun q => dumpTable q.1 q.2) = some wContent) :=
  get_tools_independent_copy wHeap 3 wContent wCopyHeap 7 4
    (.paramObj ⟨"y", "e", "str", false⟩)
    (by unfold HeapModel.Heap.closed; decide) (by decide) (by decide) (by decide)

/-- Claim C10: neither `dispatch_tool` nor `get_tools` modifies the registry
state: dispatch hands back exactly the state it was given on every control
path (only `register_tool` writes the tables), and `get_tools` only allocates
fresh copies — after it runs, the live table rooted at its old address reads
back exactly as before the call. -/
theorem dispatch_get_tools_frame (st : RegState) (n : String) (p : List (String × PyObj)) :
    (dispatch_tool n p st).2 = st ∧
    (∀ (h : HeapModel.Heap) (a : Nat) (content : List (String × ToolDef))
        (h1 : HeapModel.Heap) (a1 : Nat),
        h.closed → HeapModel.dumpTable h a = some content →
        HeapModel.get_tools h a = some (h1, a1) →
        HeapModel.dumpTable h1 a = some content) := by
  refine ⟨dispatch_snd n p st, ?_⟩
  intro h a content h1 a1 hc hd hcp
  obtain ⟨_, h1e, _, _, _⟩ := deepcopyTable_spec hc hd hcp
  exact dumpTable_ext h1e hd

/-- Claim C10 witness: a concrete dispatch returns the registry unchanged,
and after a concrete `get_tools` the live table still reads back identically. -/
theorem dispatch_get_tools_frame_witness :
    (dispatch_tool "get_weather" [("city_name", PyObj.str "beijing")]
        (initState stubWorld)).2 = initState stubWorld ∧
    dumpTable wCopyHeap 3 = some wContent :=
  ⟨(dispatch_get_tools_frame (initState stubWorld) "get_weather"
      [("city_name", PyObj.str "beijing")]).1,
   (dispatch_get_tools_frame (initState stubWorld) "get_weather"
      [("city_name", PyObj.str "beijing")]).2 wHeap 3 wContent wCopyHeap 7
     (by unfold HeapModel.Heap.closed; decide) (by decide) (by decide)⟩

end

end ToolRegistry
